import Mathlib

/-!
Shallow embedding of the two Node migration scripts of goryu-docsite:
  * the primary script (reads each `<middleware>/README.md` under a source
    directory, writes `<middleware>.md` files plus a generated `index.md`
    into a target directory, and logs a sidebar fragment helper list), and
  * the secondary script `migrate_remaining.js` (copies an explicit list of
    `{src, dest}` path pairs, creating destination directories as needed).

The filesystem is modelled explicitly: the primary script's writes are an
ordered trace of (absolute path, content) pairs applied to an association
list, and the secondary script produces an ordered trace of mkdir / write /
log events.  Paths are plain strings; `path.join`/`path.resolve` on the
simple relative names appearing in the scripts amount to concatenation with
a slash.  `console.log` output is modelled as a list of lines.
-/

namespace GoryuDoc

/-- One entry of `fs.readdirSync(sourceDir)` for the primary script:
its name, whether `statSync(...).isDirectory()`, and, when it is a
directory, the content of its `README.md` if `existsSync` finds one. -/
structure SubDir where
  name : String
  isDir : Bool
  readme : Option String
deriving DecidableEq, Repr

/-- `path.join a b` for the simple path segments used by the scripts. -/
def pathJoin (a b : String) : String := a ++ "/" ++ b

/-- The hard-coded `targetDir` of the primary script. -/
def targetDir : String := "/Users/arthur/Documents/personal/goryudoc/docs/middleware"

/-- The hard-coded `configPath` of the primary script. -/
def configPath : String := "/Users/arthur/Documents/personal/goryudoc/docs/.vitepress/config.mts"

/-- Accumulated effects of the `middlewares.forEach` loop of the primary
script: the file writes (absolute target path, content) in loop order, the
`console.log` lines, and `middlewareList`. -/
structure ScanResult where
  writes : List (String × String)
  logs : List String
  middlewareList : List String
deriving DecidableEq, Repr

/-- The `middlewares.forEach(mw => ...)` loop: for each directory entry
that is a directory and contains a `README.md`, write its content to
`targetDir/<mw>.md`, log `Migrated <mw>`, and push `mw` onto
`middlewareList`. -/
def scanMiddlewares : List SubDir → ScanResult
  | [] => ⟨[], [], []⟩
  | e :: rest =>
    if e.isDir then
      match e.readme with
      | some content =>
        let r := scanMiddlewares rest
        ⟨(pathJoin targetDir (e.name ++ ".md"), content) :: r.writes,
         ("Migrated " ++ e.name) :: r.logs,
         e.name :: r.middlewareList⟩
      | none => scanMiddlewares rest
    else scanMiddlewares rest

/-- The template literal building `indexContent` from `middlewareList`. -/
def indexContent (middlewareList : List String) : String :=
  "# Middleware\n\nGoryu comes with a rich set of built-in middlewares.\n\n## Available Middleware\n\n"
    ++ String.intercalate "\n"
        (middlewareList.map (fun mw => "- [" ++ mw ++ "](/middleware/" ++ mw ++ ")"))
    ++ "\n"

/-- `mw.charAt(0).toUpperCase() + mw.slice(1)` (ASCII case mapping). -/
def capitalize (s : String) : String :=
  match s.data with
  | [] => ""
  | c :: cs => String.mk (c.toUpper :: cs)

/-- The `sidebarItems` template: one line per middleware name, with the
display text capitalized. -/
def sidebarItems (middlewareList : List String) : String :=
  String.intercalate "\n"
    (middlewareList.map (fun mw =>
      "            \x7b text: \x27" ++ capitalize mw ++ "\x27, link: \x27/middleware/"
        ++ mw ++ "\x27 \x7d,"))

/-- The `newSidebarSection` template literal of the primary script.  It is
constructed by the script but never written or logged. -/
def newSidebarSection (middlewareList : List String) : String :=
  "      \x27/middleware/\x27: [\n        \x7b\n          text: \x27Middleware\x27,\n          items: [\n            \x7b text: \x27Overview\x27, link: \x27/middleware/\x27 \x7d,\n"
    ++ sidebarItems middlewareList
    ++ "\n          ]\n        \x7d\n      ],"

/-- `JSON.stringify` of an array of strings (escaping backslash and quote;
other JSON control-character escapes do not arise for directory names). -/
def jsonEscape (s : String) : String :=
  String.mk (s.data.foldr
    (fun c acc =>
      if c = '\x22' then '\x5c' :: '\x22' :: acc
      else if c = '\x5c' then '\x5c' :: '\x5c' :: acc
      else c :: acc) [])

/-- `JSON.stringify(middlewareList)`. -/
def jsonStringify (l : List String) : String :=
  "[" ++ String.intercalate "," (l.map (fun s => "\x22" ++ jsonEscape s ++ "\x22")) ++ "]"

/-- `fs.writeFileSync`: overwrite the entry at path `p` in the association
list if present, otherwise append it. -/
def fsWrite (fs : List (String × String)) (p c : String) : List (String × String) :=
  if fs.any (fun q => q.1 = p) then
    fs.map (fun q => if q.1 = p then (p, c) else q)
  else
    fs ++ [(p, c)]

/-- Apply a trace of writes in order. -/
def applyWrites (fs : List (String × String)) (ws : List (String × String)) :
    List (String × String) :=
  ws.foldl (fun f w => fsWrite f w.1 w.2) fs

/-- Read the content at path `p` (first matching entry). -/
def fsLookup (fs : List (String × String)) (p : String) : Option String :=
  (fs.find? (fun q => q.1 = p)).map Prod.snd

/-- The last write to path `p` in a trace, if any. -/
def lastWrite : List (String × String) → String → Option String
  | [], _ => none
  | w :: ws, p => (lastWrite ws p).or (if w.1 = p then some w.2 else none)

/-- Outcome of one run of the primary script over a directory listing
`entries`, a config file state (`none` = `config.mts` missing, in which
case `fs.readFileSync(configPath)` throws), and an initial filesystem
`fs0`.  `writes` is the ordered trace of `writeFileSync` calls, `fs` the
filesystem after applying them, `logs` the console output, and `crashed`
records whether the run terminated with the unhandled config-read
exception. -/
structure RunOutcome where
  writes : List (String × String)
  fs : List (String × String)
  logs : List String
  middlewareList : List String
  crashed : Bool
deriving DecidableEq, Repr

/-- The primary script, end to end: the forEach loop, the unconditional
`index.md` write, the `fs.readFileSync(configPath)` (which throws when the
config file is absent, after all file writes have happened), and the two
final `console.log` lines.  `newSidebarSection` is computed by the script
but neither written nor logged, so it does not appear in the outcome. -/
def runMigration (entries : List SubDir) (config : Option String)
    (fs0 : List (String × String)) : RunOutcome :=
  let r := scanMiddlewares entries
  let ws := r.writes ++ [(pathJoin targetDir "index.md", indexContent r.middlewareList)]
  let fs1 := applyWrites fs0 ws
  match config with
  | none => ⟨ws, fs1, r.logs, r.middlewareList, true⟩
  | some _ =>
      ⟨ws, fs1,
       r.logs ++ ["Middleware List for Sidebar:", jsonStringify r.middlewareList],
       r.middlewareList, false⟩

/-! ### Fallible model of the primary script

The script contains no try/catch, so a failing filesystem primitive throws
and terminates the run.  `Oracle` says which primitive calls fail; the run
is replayed with the effects accumulated up to the first failure. -/

/-- Which filesystem primitives fail: `readdirSync` on the source
directory, `statSync` per entry name, `readFileSync` per entry name,
`writeFileSync` per absolute path, and `readFileSync(configPath)`. -/
structure Oracle where
  readdirFail : Bool
  statFail : String → Bool
  readFail : String → Bool
  writeFail : String → Bool
  configFail : Bool

/-- An unhandled filesystem exception, tagged with the call that threw. -/
inductive FsErr where
  | readdirE : FsErr
  | statE : String → FsErr
  | readE : String → FsErr
  | writeE : String → FsErr
  | configE : FsErr
deriving DecidableEq, Repr

/-- Outcome of a (possibly failing) run: effects performed before the
first failure, and the exception if one was thrown. -/
structure ExcOutcome where
  writes : List (String × String)
  logs : List String
  middlewareList : List String
  err : Option FsErr
deriving DecidableEq, Repr

/-- The `forEach` loop under the failure oracle: each iteration calls
`statSync`, then (for a directory with a `README.md`) `readFileSync` and
`writeFileSync`; the first failing call throws, discarding nothing already
done but performing nothing further. -/
def scanExc (o : Oracle) : List SubDir → ExcOutcome
  | [] => ⟨[], [], [], none⟩
  | e :: rest =>
    if o.statFail e.name then ⟨[], [], [], some (FsErr.statE e.name)⟩
    else if e.isDir then
      match e.readme with
      | some content =>
        if o.readFail e.name then ⟨[], [], [], some (FsErr.readE e.name)⟩
        else if o.writeFail (pathJoin targetDir (e.name ++ ".md")) then
          ⟨[], [], [], some (FsErr.writeE (pathJoin targetDir (e.name ++ ".md")))⟩
        else
          let r := scanExc o rest
          ⟨(pathJoin targetDir (e.name ++ ".md"), content) :: r.writes,
           ("Migrated " ++ e.name) :: r.logs,
           e.name :: r.middlewareList, r.err⟩
      | none => scanExc o rest
    else scanExc o rest

/-- The whole primary script under the failure oracle: `readdirSync`, the
loop, the `index.md` write, the config read, the final logs. -/
def runExc (o : Oracle) (entries : List SubDir) : ExcOutcome :=
  if o.readdirFail then ⟨[], [], [], some FsErr.readdirE⟩
  else
    let r := scanExc o entries
    match r.err with
    | some er => ⟨r.writes, r.logs, r.middlewareList, some er⟩
    | none =>
      if o.writeFail (pathJoin targetDir "index.md") then
        ⟨r.writes, r.logs, r.middlewareList,
         some (FsErr.writeE (pathJoin targetDir "index.md"))⟩
      else
        let ws := r.writes ++ [(pathJoin targetDir "index.md", indexContent r.middlewareList)]
        if o.configFail then ⟨ws, r.logs, r.middlewareList, some FsErr.configE⟩
        else ⟨ws, r.logs ++ ["Middleware List for Sidebar:", jsonStringify r.middlewareList],
              r.middlewareList, none⟩

/-- The oracle under which no filesystem call fails. -/
def noFail : Oracle := ⟨false, fun _ => false, fun _ => false, fun _ => false, false⟩

/-! ### The secondary script `migrate_remaining.js` -/

/-- One `{ src, dest }` pair of the hard-coded `mappings` array. -/
structure Mapping where
  src : String
  dest : String
deriving DecidableEq, Repr

/-- The base directory passed to `path.resolve` by `migrate_remaining.js`. -/
def goryuBase : String := "/Users/arthur/Documents/personal/goryudoc"

/-- `path.resolve(goryuBase, p)` for the relative paths in the mapping list. -/
def resolveP (p : String) : String := pathJoin goryuBase p

/-- `path.dirname`: everything before the last slash (`"."` when there is
no slash, `"/"` for a file directly under the root). -/
def dirname (s : String) : String :=
  match (s.data.reverse.dropWhile (fun c => c ≠ '/')) with
  | [] => "."
  | _ :: [] => "/"
  | _ :: rest => String.mk rest.reverse

/-- The hard-coded `mappings` array of `migrate_remaining.js`. -/
def mappings : List Mapping :=
  [⟨"documentation/client/README.md", "docs/core/client.md"⟩,
   ⟨"documentation/config/README.md", "docs/core/config.md"⟩,
   ⟨"documentation/db/README.md", "docs/core/db.md"⟩,
   ⟨"documentation/goryuctx/README.md", "docs/core/context.md"⟩,
   ⟨"documentation/monitoring/README.md", "docs/monitoring/index.md"⟩,
   ⟨"documentation/monitoring/UI_README.md", "docs/monitoring/ui.md"⟩,
   ⟨"documentation/plugins/README.md", "docs/plugins/index.md"⟩,
   ⟨"documentation/router/builder/README.md", "docs/router/builder.md"⟩,
   ⟨"documentation/tutorial.md", "docs/guide/tutorial.md"⟩,
   ⟨"documentation/route/README.md", "docs/router/route.md"⟩]

/-- Observable events of `migrate_remaining.js`, in program order. -/
inductive Ev where
  | mkdir : String → Ev
  | write : String → String → Ev
  | log : String → Ev
deriving DecidableEq, Repr

/-- The body of `mappings.forEach(map => ...)` for one pair: ensure the
destination directory exists (`mkdirSync` when `existsSync` is false),
then either copy the source file and log success, or log the
source-not-found warning.  `dirExists` is the `existsSync(destDir)` answer
at this iteration. -/
def pairEvents (f : String → Option String) (dirExists : Bool) (m : Mapping) : List Ev :=
  (if dirExists then [] else [Ev.mkdir (dirname (resolveP m.dest))]) ++
    (match f (resolveP m.src) with
     | some content =>
         [Ev.write (resolveP m.dest) content,
          Ev.log ("Migrated " ++ m.src ++ " -> " ++ m.dest)]
     | none => [Ev.log ("WARNING: Source not found: " ++ m.src)])

/-- The `forEach` over the mapping list, threading which directories exist
(a directory just created by `mkdirSync` exists for later iterations; the
destination directories of the hard-coded list are not nested in one
another, so marking only the created directory itself is faithful). -/
def runRemaining (f : String → Option String) : (String → Bool) → List Mapping → List Ev
  | _, [] => []
  | d, m :: rest =>
    let destDir := dirname (resolveP m.dest)
    pairEvents f (d destDir) m
      ++ runRemaining f (fun x => if x = destDir then true else d x) rest

/-! ### String and path lemmas -/

lemma string_append_left_cancel {a b c : String} (h : a ++ b = a ++ c) : b = c := by
  have hd := congrArg String.data h
  simp only [String.data_append] at hd
  exact String.ext (List.append_cancel_left hd)

lemma string_append_right_cancel {a b c : String} (h : a ++ c = b ++ c) : a = b := by
  have hd := congrArg String.data h
  simp only [String.data_append] at hd
  exact String.ext (List.append_cancel_right hd)

lemma pathJoin_inj {a x y : String} (h : pathJoin a x = pathJoin a y) : x = y :=
  string_append_left_cancel (a := a ++ "/") h

lemma md_inj {x y : String} (h : x ++ ".md" = y ++ ".md") : x = y :=
  string_append_right_cancel h

/-- No write of the primary script can hit the config file: every write
path is below `targetDir`, which is not a prefix of `configPath`. -/
lemma pathJoin_targetDir_ne_configPath (s : String) : pathJoin targetDir s ≠ configPath := by
  intro h
  have hslash : ("/" : String).data = ['/'] := rfl
  have hd : targetDir.data ++ ('/' :: s.data) = configPath.data := by
    have hh := congrArg String.data h
    simpa [pathJoin, String.data_append, hslash] using hh
  have ht := congrArg (List.take 58) hd
  rw [List.take_append_eq_append_take] at ht
  have hlen : targetDir.data.length = 57 := rfl
  have hle : targetDir.data.length ≤ 58 := by rw [hlen]; omega
  rw [List.take_of_length_le hle, hlen] at ht
  have h1 : List.take (58 - 57) ('/' :: s.data) = ['/'] := by norm_num
  rw [h1] at ht
  exact absurd ht (by decide)

/-! ### Filesystem lemmas -/

lemma fsLookup_cons_eq {w : String × String} {fs : List (String × String)} {q : String}
    (h : w.1 = q) : fsLookup (w :: fs) q = some w.2 := by
  simp [fsLookup, List.find?_cons, h]

lemma fsLookup_cons_ne {w : String × String} {fs : List (String × String)} {q : String}
    (h : w.1 ≠ q) : fsLookup (w :: fs) q = fsLookup fs q := by
  simp [fsLookup, List.find?_cons, h]

lemma fsLookup_map_update (fs : List (String × String)) (p c q : String) :
    fsLookup (fs.map (fun r => if r.1 = p then (p, c) else r)) q =
      if q = p then (if fs.any (fun r => r.1 = p) then some c else none)
      else fsLookup fs q := by
  induction fs with
  | nil => by_cases h : q = p <;> simp [fsLookup, h]
  | cons w fs ih =>
    simp only [List.map_cons, List.any_cons]
    by_cases hw : w.1 = p
    · rw [if_pos hw]
      by_cases hq : q = p
      · subst hq
        rw [fsLookup_cons_eq rfl]
        simp [hw]
      · have hwq : ((p, c) : String × String).1 ≠ q := Ne.symm hq
        rw [fsLookup_cons_ne hwq, ih]
        have hwq2 : w.1 ≠ q := fun hh => hq (hh ▸ hw)
        rw [fsLookup_cons_ne hwq2]
        simp [hq]
    · rw [if_neg hw]
      by_cases hq : w.1 = q
      · have hqp : q ≠ p := fun hh => hw (hq.trans hh)
        rw [if_neg hqp, fsLookup_cons_eq hq, fsLookup_cons_eq hq]
      · rw [fsLookup_cons_ne hq, fsLookup_cons_ne hq, ih]
        have hcond : (decide (w.1 = p) || fs.any fun r => decide (r.1 = p)) =
            (fs.any fun r => decide (r.1 = p)) := by simp [hw]
        simp only [hcond]

lemma fsLookup_of_any_false {fs : List (String × String)} {p : String}
    (h : fs.any (fun r => r.1 = p) = false) : fsLookup fs p = none := by
  rw [fsLookup, Option.map_eq_none']
  rw [List.find?_eq_none]
  intro x hx
  simpa using List.any_eq_false.mp h x hx

lemma fsLookup_append (fs1 fs2 : List (String × String)) (q : String) :
    fsLookup (fs1 ++ fs2) q = (fsLookup fs1 q).or (fsLookup fs2 q) := by
  rw [fsLookup, List.find?_append]
  cases h : List.find? (fun r => r.1 = q) fs1 with
  | none => simp [fsLookup, h, Option.or]
  | some w => simp [fsLookup, h, Option.or]

lemma fsLookup_fsWrite (fs : List (String × String)) (p c q : String) :
    fsLookup (fsWrite fs p c) q = if q = p then some c else fsLookup fs q := by
  rw [fsWrite]
  by_cases h : (fs.any fun r => r.1 = p) = true
  · rw [if_pos h, fsLookup_map_update, h]
    simp
  · rw [if_neg h, fsLookup_append]
    have hn := fsLookup_of_any_false (p := p) (eq_false_of_ne_true h)
    by_cases hq : q = p
    · subst hq
      rw [hn, if_pos rfl]
      simp [fsLookup, List.find?_cons, Option.or]
    · rw [if_neg hq]
      have hone : fsLookup [(p, c)] q = none := by
        simp [fsLookup, List.find?_cons, Ne.symm hq]
      rw [hone]
      cases fsLookup fs q <;> simp [Option.or]

lemma fsLookup_applyWrites (fs : List (String × String)) (ws : List (String × String))
    (q : String) :
    fsLookup (applyWrites fs ws) q = (lastWrite ws q).or (fsLookup fs q) := by
  induction ws generalizing fs with
  | nil => simp [applyWrites, lastWrite, Option.none_or]
  | cons w ws ih =>
    show fsLookup (applyWrites (fsWrite fs w.1 w.2) ws) q = _
    rw [ih, fsLookup_fsWrite, lastWrite, Option.or_assoc]
    cases hl : lastWrite ws q with
    | some c => rfl
    | none =>
      rw [Option.none_or, Option.none_or]
      by_cases hq : w.1 = q
      · simp [hq, Option.or]
      · simp [hq, Ne.symm hq, Option.none_or]

lemma lastWrite_append (ws1 ws2 : List (String × String)) (q : String) :
    lastWrite (ws1 ++ ws2) q = (lastWrite ws2 q).or (lastWrite ws1 q) := by
  induction ws1 with
  | nil => rw [List.nil_append, lastWrite, Option.or_none]
  | cons w ws ih =>
    rw [List.cons_append, lastWrite, ih, lastWrite, Option.or_assoc]

/-! ### Normal forms for the forEach loop -/

/-- The predicate selecting the entries the loop migrates. -/
def migrated (e : SubDir) : Bool := e.isDir && e.readme.isSome

lemma scan_writes_eq (entries : List SubDir) :
    (scanMiddlewares entries).writes =
      (entries.filter migrated).map
        (fun e => (pathJoin targetDir (e.name ++ ".md"), e.readme.getD "")) := by
  induction entries with
  | nil => rfl
  | cons e rest ih =>
    cases hd : e.isDir <;> cases hr : e.readme <;>
      simp [scanMiddlewares, hd, hr, migrated, List.filter, ih]

lemma scan_mwList_eq (entries : List SubDir) :
    (scanMiddlewares entries).middlewareList =
      (entries.filter migrated).map SubDir.name := by
  induction entries with
  | nil => rfl
  | cons e rest ih =>
    cases hd : e.isDir <;> cases hr : e.readme <;>
      simp [scanMiddlewares, hd, hr, migrated, List.filter, ih]

lemma scan_logs_eq (entries : List SubDir) :
    (scanMiddlewares entries).logs =
      (entries.filter migrated).map (fun e => "Migrated " ++ e.name) := by
  induction entries with
  | nil => rfl
  | cons e rest ih =>
    cases hd : e.isDir <;> cases hr : e.readme <;>
      simp [scanMiddlewares, hd, hr, migrated, List.filter, ih]

lemma tPath_inj {a b : String}
    (h : pathJoin targetDir (a ++ ".md") = pathJoin targetDir (b ++ ".md")) : a = b :=
  md_inj (pathJoin_inj h)

lemma scan_cons_sel (e : SubDir) (rest : List SubDir) (content : String)
    (hd : e.isDir = true) (hr : e.readme = some content) :
    scanMiddlewares (e :: rest) =
      ⟨(pathJoin targetDir (e.name ++ ".md"), content) :: (scanMiddlewares rest).writes,
       ("Migrated " ++ e.name) :: (scanMiddlewares rest).logs,
       e.name :: (scanMiddlewares rest).middlewareList⟩ := by
  simp [scanMiddlewares, hd, hr]

lemma scan_cons_skip (e : SubDir) (rest : List SubDir)
    (h : ¬(e.isDir = true ∧ e.readme.isSome = true)) :
    scanMiddlewares (e :: rest) = scanMiddlewares rest := by
  cases hd : e.isDir <;> cases hr : e.readme <;> simp [scanMiddlewares, hd, hr]
  exact absurd ⟨hd, by rw [hr]; rfl⟩ h

/-- The loop writes nothing at `<name>.md` when no listing entry is called
`name`. -/
lemma lastWrite_scan_none (entries : List SubDir) (name : String)
    (h : name ∉ entries.map SubDir.name) :
    lastWrite (scanMiddlewares entries).writes (pathJoin targetDir (name ++ ".md")) = none := by
  induction entries with
  | nil => rfl
  | cons a rest ih =>
    have hna : a.name ≠ name := by intro hh; exact h (by simp [hh])
    have hrest : name ∉ rest.map SubDir.name := by intro hm; exact h (by simp [hm])
    by_cases hm : a.isDir = true ∧ a.readme.isSome = true
    · obtain ⟨hd, hs⟩ := hm
      obtain ⟨content, hr⟩ := Option.isSome_iff_exists.mp hs
      rw [scan_cons_sel a rest content hd hr]
      simp only [lastWrite]
      rw [ih hrest, Option.none_or, if_neg (fun hh => hna (tPath_inj hh))]
    · rw [scan_cons_skip a rest hm]
      exact ih hrest

/-- The last loop write at `<e.name>.md` is the README content of `e`,
when names are distinct (as a real directory listing's are). -/
lemma lastWrite_scan (entries : List SubDir) (e : SubDir) (content : String)
    (hnd : (entries.map SubDir.name).Nodup) (he : e ∈ entries)
    (hd : e.isDir = true) (hr : e.readme = some content) :
    lastWrite (scanMiddlewares entries).writes (pathJoin targetDir (e.name ++ ".md")) =
      some content := by
  induction entries with
  | nil => cases he
  | cons a rest ih =>
    rw [List.map_cons, List.nodup_cons] at hnd
    obtain ⟨hna, hndr⟩ := hnd
    rcases List.mem_cons.mp he with hea | her
    · subst hea
      rw [scan_cons_sel e rest content hd hr]
      simp only [lastWrite]
      rw [lastWrite_scan_none rest e.name hna, Option.none_or]
      simp
    · have hih := ih hndr her
      by_cases hm : a.isDir = true ∧ a.readme.isSome = true
      · obtain ⟨hda, hsa⟩ := hm
        obtain ⟨ca, hra⟩ := Option.isSome_iff_exists.mp hsa
        rw [scan_cons_sel a rest ca hda hra]
        simp only [lastWrite]
        rw [hih]
        rfl
      · rw [scan_cons_skip a rest hm]
        exact hih

/-! ### Projections of a full run -/

lemma run_writes_eq (entries : List SubDir) (cfg : Option String)
    (fs0 : List (String × String)) :
    (runMigration entries cfg fs0).writes =
      (scanMiddlewares entries).writes ++
        [(pathJoin targetDir "index.md",
          indexContent (scanMiddlewares entries).middlewareList)] := by
  cases cfg <;> rfl

lemma run_fs_eq (entries : List SubDir) (cfg : Option String)
    (fs0 : List (String × String)) :
    (runMigration entries cfg fs0).fs =
      applyWrites fs0
        ((scanMiddlewares entries).writes ++
          [(pathJoin targetDir "index.md",
            indexContent (scanMiddlewares entries).middlewareList)]) := by
  cases cfg <;> rfl

lemma run_logs_some (entries : List SubDir) (c : String) (fs0 : List (String × String)) :
    (runMigration entries (some c) fs0).logs =
      (scanMiddlewares entries).logs ++
        ["Middleware List for Sidebar:",
         jsonStringify (scanMiddlewares entries).middlewareList] := rfl

lemma run_logs_none (entries : List SubDir) (fs0 : List (String × String)) :
    (runMigration entries none fs0).logs = (scanMiddlewares entries).logs := rfl

/-- After any run, `index.md` holds the generated index of the collected
list, whatever was there before. -/
lemma run_lookup_index (entries : List SubDir) (cfg : Option String)
    (fs0 : List (String × String)) :
    fsLookup (runMigration entries cfg fs0).fs (pathJoin targetDir "index.md") =
      some (indexContent (scanMiddlewares entries).middlewareList) := by
  rw [run_fs_eq, fsLookup_applyWrites, lastWrite_append]
  have h1 : lastWrite
      [(pathJoin targetDir "index.md",
        indexContent (scanMiddlewares entries).middlewareList)]
      (pathJoin targetDir "index.md") =
      some (indexContent (scanMiddlewares entries).middlewareList) := by
    simp [lastWrite, Option.or]
  rw [h1]
  rfl

/-- After any run, a migrated topic not named `index` ends up with its
README content at `<name>.md`. -/
lemma run_lookup_topic (entries : List SubDir) (cfg : Option String)
    (fs0 : List (String × String)) (e : SubDir) (content : String)
    (hnd : (entries.map SubDir.name).Nodup) (he : e ∈ entries) (hd : e.isDir = true)
    (hr : e.readme = some content) (hn : e.name ≠ "index") :
    fsLookup (runMigration entries cfg fs0).fs (pathJoin targetDir (e.name ++ ".md")) =
      some content := by
  rw [run_fs_eq, fsLookup_applyWrites, lastWrite_append]
  have h1 : lastWrite
      [(pathJoin targetDir "index.md",
        indexContent (scanMiddlewares entries).middlewareList)]
      (pathJoin targetDir (e.name ++ ".md")) = none := by
    simp only [lastWrite, Option.none_or]
    have hmd : ("index" : String) ++ ".md" = "index.md" := rfl
    rw [if_neg (fun hh => hn (md_inj (hmd ▸ pathJoin_inj hh)).symm)]
  rw [h1, Option.none_or, lastWrite_scan entries e content hnd he hd hr]
  rfl

/-! ### First characters of console lines -/

lemma head_migrated (s : String) : ("Migrated " ++ s).data.head? = some 'M' := by
  have h : "Migrated ".data = ['M', 'i', 'g', 'r', 'a', 't', 'e', 'd', ' '] := rfl
  simp [String.data_append, h]

lemma head_json (l : List String) : (jsonStringify l).data.head? = some '[' := by
  rw [jsonStringify]
  have h : "[".data = ['['] := rfl
  simp [String.data_append, h]

lemma head_sidebar (l : List String) : (newSidebarSection l).data.head? = some ' ' := by
  rw [newSidebarSection, String.data_append, String.data_append]
  rw [show ("      \x27/middleware/\x27: [\n        \x7b\n          text: \x27Middleware\x27,\n          items: [\n            \x7b text: \x27Overview\x27, link: \x27/middleware/\x27 \x7d,\n" : String).data =
      ' ' :: ("      \x27/middleware/\x27: [\n        \x7b\n          text: \x27Middleware\x27,\n          items: [\n            \x7b text: \x27Overview\x27, link: \x27/middleware/\x27 \x7d,\n" : String).data.tail from rfl]
  rfl

lemma head_append_of_head {s : String} (t : String) {ch : Char}
    (h : s.data.head? = some ch) : (s ++ t).data.head? = some ch := by
  rw [String.data_append, List.head?_append, h]
  rfl

lemma head_warn (s : String) :
    ("WARNING: Source not found: " ++ s).data.head? = some 'W' := by
  rw [String.data_append]
  rw [show ("WARNING: Source not found: " : String).data =
      'W' :: ("WARNING: Source not found: " : String).data.tail from rfl]
  rfl

lemma ne_of_head_ne {a b : String} {c d : Char} (ha : a.data.head? = some c)
    (hb : b.data.head? = some d) (h : c ≠ d) : a ≠ b := by
  intro he
  rw [he, hb] at ha
  exact h (Option.some.inj ha).symm

/-- The sidebar block (first character a space) is never among the console
lines (each starting with `M` or `[`). -/
lemma sidebar_not_logged (entries : List SubDir) (c : String)
    (fs0 : List (String × String)) (l : List String) :
    newSidebarSection l ∉ (runMigration entries (some c) fs0).logs := by
  intro hmem
  have hhead := head_sidebar l
  rw [run_logs_some] at hmem
  rcases List.mem_append.mp hmem with hs | hf
  · rw [scan_logs_eq] at hs
    obtain ⟨e, _, heq⟩ := List.mem_map.mp hs
    rw [← heq, head_migrated] at hhead
    exact absurd hhead (by decide)
  · rcases List.mem_cons.mp hf with h1 | h2
    · rw [h1] at hhead
      exact absurd hhead (by decide)
    · rw [List.mem_singleton.mp h2, head_json] at hhead
      exact absurd hhead (by decide)

/-! ### Lemmas on the fallible run -/

lemma noFail_statFail (n : String) : noFail.statFail n = false := rfl

lemma noFail_readFail (n : String) : noFail.readFail n = false := rfl

lemma noFail_writeFail (p : String) : noFail.writeFail p = false := rfl

lemma scanExc_noFail (entries : List SubDir) :
    scanExc noFail entries =
      ⟨(scanMiddlewares entries).writes, (scanMiddlewares entries).logs,
       (scanMiddlewares entries).middlewareList, none⟩ := by
  induction entries with
  | nil => rfl
  | cons e rest ih =>
    cases hd : e.isDir <;> cases hr : e.readme <;>
      simp [scanExc, scanMiddlewares, hd, hr, ih,
        noFail_statFail, noFail_readFail, noFail_writeFail]

lemma scanExc_err_none (o : Oracle) (entries : List SubDir)
    (h : (scanExc o entries).err = none) : scanExc o entries = scanExc noFail entries := by
  induction entries with
  | nil => rfl
  | cons e rest ih =>
    by_cases hs : o.statFail e.name
    · simp [scanExc, hs] at h
    · cases hd : e.isDir with
      | false =>
        rw [show scanExc o (e :: rest) = scanExc o rest by simp [scanExc, hs, hd]] at h ⊢
        rw [show scanExc noFail (e :: rest) = scanExc noFail rest by simp [scanExc, noFail, hd]]
        exact ih h
      | true =>
        cases hr : e.readme with
        | none =>
          rw [show scanExc o (e :: rest) = scanExc o rest by simp [scanExc, hs, hd, hr]] at h ⊢
          rw [show scanExc noFail (e :: rest) = scanExc noFail rest by
            simp [scanExc, noFail, hd, hr]]
          exact ih h
        | some content =>
          by_cases hrf : o.readFail e.name
          · simp [scanExc, hs, hd, hr, hrf] at h
          · by_cases hwf : o.writeFail (pathJoin targetDir (e.name ++ ".md"))
            · simp [scanExc, hs, hd, hr, hrf, hwf] at h
            · have hred : scanExc o (e :: rest) =
                  ⟨(pathJoin targetDir (e.name ++ ".md"), content) :: (scanExc o rest).writes,
                   ("Migrated " ++ e.name) :: (scanExc o rest).logs,
                   e.name :: (scanExc o rest).middlewareList, (scanExc o rest).err⟩ := by
                simp [scanExc, hs, hd, hr, hrf, hwf]
              have hredn : scanExc noFail (e :: rest) =
                  ⟨(pathJoin targetDir (e.name ++ ".md"), content) :: (scanExc noFail rest).writes,
                   ("Migrated " ++ e.name) :: (scanExc noFail rest).logs,
                   e.name :: (scanExc noFail rest).middlewareList, (scanExc noFail rest).err⟩ := by
                simp [scanExc, noFail, hd, hr]
              rw [hred] at h ⊢
              rw [hredn]
              simp only at h
              rw [ih h]

lemma scanExc_prefix (o : Oracle) (entries : List SubDir) :
    (scanExc o entries).writes <+: (scanExc noFail entries).writes ∧
    (scanExc o entries).logs <+: (scanExc noFail entries).logs := by
  induction entries with
  | nil => exact ⟨List.nil_prefix, List.nil_prefix⟩
  | cons e rest ih =>
    by_cases hs : o.statFail e.name
    · rw [show scanExc o (e :: rest) = ⟨[], [], [], some (FsErr.statE e.name)⟩ by
        simp [scanExc, hs]]
      exact ⟨List.nil_prefix, List.nil_prefix⟩
    · cases hd : e.isDir with
      | false =>
        rw [show scanExc o (e :: rest) = scanExc o rest by simp [scanExc, hs, hd]]
        rw [show scanExc noFail (e :: rest) = scanExc noFail rest by simp [scanExc, noFail, hd]]
        exact ih
      | true =>
        cases hr : e.readme with
        | none =>
          rw [show scanExc o (e :: rest) = scanExc o rest by simp [scanExc, hs, hd, hr]]
          rw [show scanExc noFail (e :: rest) = scanExc noFail rest by
            simp [scanExc, noFail, hd, hr]]
          exact ih
        | some content =>
          have hredn : scanExc noFail (e :: rest) =
              ⟨(pathJoin targetDir (e.name ++ ".md"), content) :: (scanExc noFail rest).writes,
               ("Migrated " ++ e.name) :: (scanExc noFail rest).logs,
               e.name :: (scanExc noFail rest).middlewareList, (scanExc noFail rest).err⟩ := by
            simp [scanExc, noFail, hd, hr]
          rw [hredn]
          by_cases hrf : o.readFail e.name
          · rw [show scanExc o (e :: rest) = ⟨[], [], [], some (FsErr.readE e.name)⟩ by
              simp [scanExc, hs, hd, hr, hrf]]
            exact ⟨List.nil_prefix, List.nil_prefix⟩
          · by_cases hwf : o.writeFail (pathJoin targetDir (e.name ++ ".md"))
            · rw [show scanExc o (e :: rest) =
                  ⟨[], [], [], some (FsErr.writeE (pathJoin targetDir (e.name ++ ".md")))⟩ by
                simp [scanExc, hs, hd, hr, hrf, hwf]]
              exact ⟨List.nil_prefix, List.nil_prefix⟩
            · rw [show scanExc o (e :: rest) =
                  ⟨(pathJoin targetDir (e.name ++ ".md"), content) :: (scanExc o rest).writes,
                   ("Migrated " ++ e.name) :: (scanExc o rest).logs,
                   e.name :: (scanExc o rest).middlewareList, (scanExc o rest).err⟩ by
                simp [scanExc, hs, hd, hr, hrf, hwf]]
              exact ⟨List.cons_prefix_cons.mpr ⟨rfl, ih.1⟩,
                     List.cons_prefix_cons.mpr ⟨rfl, ih.2⟩⟩

/-! ### Lemmas on the secondary script -/

lemma resolveP_inj {a b : String} (h : resolveP a = resolveP b) : a = b :=
  pathJoin_inj h

lemma runRemaining_cons (f : String → Option String) (d : String → Bool)
    (m : Mapping) (rest : List Mapping) :
    runRemaining f d (m :: rest) =
      pairEvents f (d (dirname (resolveP m.dest))) m
        ++ runRemaining f
            (fun x => if x = dirname (resolveP m.dest) then true else d x) rest := rfl

lemma success_mem_pairEvents (f : String → Option String) (b : Bool) (m : Mapping)
    (c : String) (h : f (resolveP m.src) = some c) :
    Ev.write (resolveP m.dest) c ∈ pairEvents f b m ∧
    Ev.log ("Migrated " ++ m.src ++ " -> " ++ m.dest) ∈ pairEvents f b m := by
  constructor <;>
    · rw [pairEvents, h]
      exact List.mem_append_right _ (by simp)

lemma warn_mem_pairEvents (f : String → Option String) (b : Bool) (m : Mapping)
    (h : f (resolveP m.src) = none) :
    Ev.log ("WARNING: Source not found: " ++ m.src) ∈ pairEvents f b m := by
  rw [pairEvents, h]
  exact List.mem_append_right _ (by simp)

/-- An event every pair-iteration emits (whatever the mkdir flag) is in the
run's trace once the pair is in the list. -/
lemma mem_runRemaining (f : String → Option String) (maps : List Mapping) (m : Mapping)
    (ev : Ev) (hm : m ∈ maps) (h : ∀ b : Bool, ev ∈ pairEvents f b m) :
    ∀ d : String → Bool, ev ∈ runRemaining f d maps := by
  induction maps with
  | nil => cases hm
  | cons a rest ih =>
    intro d
    rw [runRemaining_cons]
    rcases List.mem_cons.mp hm with h1 | h2
    · subst h1
      exact List.mem_append_left _ (h _)
    · exact List.mem_append_right _ (ih h2 _)

lemma head_success (m : Mapping) :
    ("Migrated " ++ m.src ++ " -> " ++ m.dest).data.head? = some 'M' :=
  head_append_of_head _ (head_append_of_head _ (head_migrated m.src))

lemma count_warn_pairEvents (f : String → Option String) (b : Bool) (m' : Mapping)
    (s : String) :
    (pairEvents f b m').count (Ev.log ("WARNING: Source not found: " ++ s)) =
      if m'.src = s ∧ f (resolveP m'.src) = none then 1 else 0 := by
  have hne : ("Migrated " ++ m'.src ++ " -> " ++ m'.dest) ≠
      ("WARNING: Source not found: " ++ s) :=
    ne_of_head_ne (head_success m') (head_warn s) (by decide)
  rw [pairEvents, List.count_append]
  have hmk : (if b then ([] : List Ev)
      else [Ev.mkdir (dirname (resolveP m'.dest))]).count
        (Ev.log ("WARNING: Source not found: " ++ s)) = 0 := by
    cases b <;> simp
  rw [hmk]
  cases hf : f (resolveP m'.src) with
  | some c =>
    simp [List.count_cons, hne]
  | none =>
    by_cases hms : m'.src = s
    · subst hms
      simp
    · have hws : ("WARNING: Source not found: " ++ m'.src) ≠
          ("WARNING: Source not found: " ++ s) :=
        fun hh => hms (string_append_left_cancel hh)
      simp [hms, List.count_singleton, hws]

lemma count_warn_zero (f : String → Option String) (s : String) (maps : List Mapping)
    (h : ∀ m' ∈ maps, m'.src ≠ s) :
    ∀ d : String → Bool,
      (runRemaining f d maps).count (Ev.log ("WARNING: Source not found: " ++ s)) = 0 := by
  induction maps with
  | nil => intro d; rfl
  | cons a rest ih =>
    intro d
    rw [runRemaining_cons, List.count_append, count_warn_pairEvents]
    rw [if_neg (fun hc => h a (List.mem_cons_self a rest) hc.1)]
    rw [ih (fun m' hm' => h m' (List.mem_cons_of_mem a hm')) _]

/-- Exactly one warning is printed for a pair with a missing source, when
the pairs' sources are pairwise distinct. -/
lemma count_warn_one (f : String → Option String) (maps : List Mapping) (m : Mapping)
    (hnd : (maps.map Mapping.src).Nodup) (hm : m ∈ maps)
    (h : f (resolveP m.src) = none) :
    ∀ d : String → Bool,
      (runRemaining f d maps).count
        (Ev.log ("WARNING: Source not found: " ++ m.src)) = 1 := by
  induction maps with
  | nil => cases hm
  | cons a rest ih =>
    intro d
    rw [List.map_cons, List.nodup_cons] at hnd
    obtain ⟨hna, hndr⟩ := hnd
    rw [runRemaining_cons, List.count_append, count_warn_pairEvents]
    rcases List.mem_cons.mp hm with h1 | h2
    · subst h1
      rw [if_pos ⟨rfl, h⟩]
      rw [count_warn_zero f m.src rest
        (fun m' hm' hh => hna (List.mem_map.mpr ⟨m', hm', hh⟩)) _]
    · have hne : a.src ≠ m.src := fun hh => hna (hh ▸ List.mem_map.mpr ⟨m, h2, rfl⟩)
      rw [if_neg (fun hc => hne hc.1)]
      rw [ih hndr h2 _]

lemma write_not_mem_pair_path (f : String → Option String) (b : Bool) (m' : Mapping)
    (p : String) (c : String) (h : resolveP m'.dest ≠ p) :
    Ev.write p c ∉ pairEvents f b m' := by
  intro hmem
  rw [pairEvents] at hmem
  rcases List.mem_append.mp hmem with h1 | h2
  · cases b <;> simp at h1
  · cases hf : f (resolveP m'.src) with
    | none =>
      rw [hf] at h2
      simp at h2
    | some c' =>
      rw [hf] at h2
      simp at h2
      exact h h2.1.symm

lemma write_not_mem_pair_none (f : String → Option String) (b : Bool) (m' : Mapping)
    (p : String) (c : String) (h : f (resolveP m'.src) = none) :
    Ev.write p c ∉ pairEvents f b m' := by
  intro hmem
  rw [pairEvents, h] at hmem
  rcases List.mem_append.mp hmem with h1 | h2
  · cases b <;> simp at h1
  · simp at h2

lemma write_not_mem_run_path (f : String → Option String) (maps : List Mapping)
    (p : String) (c : String) (h : ∀ m' ∈ maps, resolveP m'.dest ≠ p) :
    ∀ d : String → Bool, Ev.write p c ∉ runRemaining f d maps := by
  induction maps with
  | nil => intro d hmem; cases hmem
  | cons a rest ih =>
    intro d hmem
    rw [runRemaining_cons] at hmem
    rcases List.mem_append.mp hmem with h1 | h2
    · exact write_not_mem_pair_path f _ a p c (h a (List.mem_cons_self a rest)) h1
    · exact ih (fun m' hm' => h m' (List.mem_cons_of_mem a hm')) _ h2

/-- A pair whose source is missing is never written to, when the pairs'
destinations are pairwise distinct. -/
lemma write_not_mem_run (f : String → Option String) (maps : List Mapping) (m : Mapping)
    (hnd : (maps.map Mapping.dest).Nodup) (hm : m ∈ maps)
    (h : f (resolveP m.src) = none) (c : String) :
    ∀ d : String → Bool, Ev.write (resolveP m.dest) c ∉ runRemaining f d maps := by
  induction maps with
  | nil => cases hm
  | cons a rest ih =>
    intro d hmem
    rw [List.map_cons, List.nodup_cons] at hnd
    obtain ⟨hna, hndr⟩ := hnd
    rw [runRemaining_cons] at hmem
    rcases List.mem_append.mp hmem with h1 | h2
    · rcases List.mem_cons.mp hm with hma | hmr
      · exact write_not_mem_pair_none f _ a _ c (hma ▸ h) h1
      · have hne : a.dest ≠ m.dest := fun hh => hna (hh ▸ List.mem_map.mpr ⟨m, hmr, rfl⟩)
        exact write_not_mem_pair_path f _ a _ c (fun hh => hne (resolveP_inj hh)) h1
    · rcases List.mem_cons.mp hm with hma | hmr
      · subst hma
        exact write_not_mem_run_path f rest (resolveP m.dest) c
          (fun m' hm' hh => hna (List.mem_map.mpr ⟨m', hm', resolveP_inj hh⟩)) _ h2
      · exact ih hndr hmr _ h2

/-- Each pair's destination directory is in the run's mkdir trace whenever
it did not exist at the start, whether or not the pair's source exists. -/
lemma mkdir_ensured (f : String → Option String) (maps : List Mapping) (m : Mapping)
    (hm : m ∈ maps) :
    ∀ d : String → Bool, d (dirname (resolveP m.dest)) = false →
      Ev.mkdir (dirname (resolveP m.dest)) ∈ runRemaining f d maps := by
  induction maps with
  | nil => cases hm
  | cons a rest ih =>
    intro d hd
    rw [runRemaining_cons]
    rcases List.mem_cons.mp hm with h1 | h2
    · subst h1
      apply List.mem_append_left
      rw [pairEvents, hd]
      simp
    · by_cases hx : dirname (resolveP m.dest) = dirname (resolveP a.dest)
      · apply List.mem_append_left
        rw [hx, pairEvents, (hx ▸ hd : d (dirname (resolveP a.dest)) = false)]
        simp
      · apply List.mem_append_right
        exact ih h2 _ (by simp [hx, hd])

lemma lastWrite_scan_config_none (entries : List SubDir) :
    lastWrite (scanMiddlewares entries).writes configPath = none := by
  rw [scan_writes_eq]
  induction entries.filter migrated with
  | nil => rfl
  | cons e rest ih =>
    simp only [List.map_cons, lastWrite, ih, Option.none_or]
    rw [if_neg (pathJoin_targetDir_ne_configPath _)]

/-! ## Claims -/

/-- C1, as stated, is false: a source subdirectory named `index` whose
`README.md` holds `# X` does not end up with `index.md` byte-identical to
`# X` — the generated index page overwrites it. -/
theorem C1_counterexample :
    fsLookup (runMigration [⟨"index", true, some "# X"⟩] (some "") []).fs
      (pathJoin targetDir ("index" ++ ".md")) ≠ some "# X" := by
  decide

/-- C1 (amended): for every immediate subdirectory of the source directory
that contains a `README.md` and is not named `index`, after the primary
migration script runs the target directory contains `<subdirectory>.md`
byte-identical to that `README.md`; a subdirectory named `index` instead
ends up overwritten by the generated index page. -/
theorem C1_topic_files_byte_identical (entries : List SubDir) (cfg : Option String)
    (fs0 : List (String × String)) (e : SubDir) (content : String)
    (hnd : (entries.map SubDir.name).Nodup) (he : e ∈ entries) (hd : e.isDir = true)
    (hr : e.readme = some content) (hn : e.name ≠ "index") :
    fsLookup (runMigration entries cfg fs0).fs (pathJoin targetDir (e.name ++ ".md")) =
      some content :=
  run_lookup_topic entries cfg fs0 e content hnd he hd hr hn

/-- Witness for C1: a concrete run over a single `auth` subdirectory. -/
theorem C1_witness :
    ((([⟨"auth", true, some "# Auth"⟩] : List SubDir).map SubDir.name).Nodup ∧
        (⟨"auth", true, some "# Auth"⟩ : SubDir) ∈
          ([⟨"auth", true, some "# Auth"⟩] : List SubDir)) ∧
      fsLookup (runMigration [⟨"auth", true, some "# Auth"⟩] (some "cfg") []).fs
        (pathJoin targetDir ("auth" ++ ".md")) = some "# Auth" :=
  ⟨⟨by decide, by decide⟩,
    C1_topic_files_byte_identical [⟨"auth", true, some "# Auth"⟩] (some "cfg") []
      ⟨"auth", true, some "# Auth"⟩ "# Auth" (by decide) (by decide) rfl rfl (by decide)⟩

/-- C2: a name is in `middlewareList` iff some listing entry with that name
is a directory containing a `README.md`; and when no such entry exists, the
loop neither collects the name nor writes `<name>.md`. -/
theorem C2_list_iff_readme (entries : List SubDir) (name : String) :
    (name ∈ (scanMiddlewares entries).middlewareList ↔
      ∃ e ∈ entries, e.name = name ∧ e.isDir = true ∧ e.readme.isSome = true) ∧
    ((∀ e ∈ entries, ¬(e.name = name ∧ e.isDir = true ∧ e.readme.isSome = true)) →
      name ∉ (scanMiddlewares entries).middlewareList ∧
      pathJoin targetDir (name ++ ".md") ∉
        (scanMiddlewares entries).writes.map Prod.fst) := by
  have hiff : name ∈ (scanMiddlewares entries).middlewareList ↔
      ∃ e ∈ entries, e.name = name ∧ e.isDir = true ∧ e.readme.isSome = true := by
    rw [scan_mwList_eq]
    simp only [List.mem_map, List.mem_filter, migrated, Bool.and_eq_true]
    constructor
    · rintro ⟨e, ⟨he, hd, hs⟩, hn⟩
      exact ⟨e, he, hn, hd, hs⟩
    · rintro ⟨e, he, hn, hd, hs⟩
      exact ⟨e, ⟨he, hd, hs⟩, hn⟩
  refine ⟨hiff, fun h => ⟨fun hmem => ?_, fun hw => ?_⟩⟩
  · obtain ⟨e, he, hn, hd, hs⟩ := hiff.mp hmem
    exact h e he ⟨hn, hd, hs⟩
  · rw [scan_writes_eq, List.map_map] at hw
    obtain ⟨e, hef, heq⟩ := List.mem_map.mp hw
    rw [List.mem_filter] at hef
    obtain ⟨he, hmig⟩ := hef
    rw [migrated, Bool.and_eq_true] at hmig
    exact h e he ⟨tPath_inj heq, hmig.1, hmig.2⟩

/-- Witness for C2: an entry without a README is neither collected nor
written. -/
theorem C2_witness :
    (∀ e ∈ ([⟨"auth", true, some "# Auth"⟩, ⟨"empty", true, none⟩] : List SubDir),
        ¬(e.name = "empty" ∧ e.isDir = true ∧ e.readme.isSome = true)) ∧
      "empty" ∉ (scanMiddlewares
          [⟨"auth", true, some "# Auth"⟩, ⟨"empty", true, none⟩]).middlewareList ∧
      pathJoin targetDir ("empty" ++ ".md") ∉
        (scanMiddlewares
          [⟨"auth", true, some "# Auth"⟩, ⟨"empty", true, none⟩]).writes.map Prod.fst := by
  refine ⟨by decide, ?_⟩
  exact (C2_list_iff_readme [⟨"auth", true, some "# Auth"⟩, ⟨"empty", true, none⟩]
    "empty").2 (by decide)

/-- C3: after any run, whatever the target held before, `index.md` holds
exactly the fixed heading followed by one `- [name](/middleware/name)` link
per migrated entry, in directory-iteration order. -/
theorem C3_index_content (entries : List SubDir) (cfg : Option String)
    (fs0 : List (String × String)) :
    fsLookup (runMigration entries cfg fs0).fs (pathJoin targetDir "index.md") =
      some ("# Middleware\n\nGoryu comes with a rich set of built-in middlewares.\n\n## Available Middleware\n\n"
        ++ String.intercalate "\n"
            (((entries.filter migrated).map SubDir.name).map
              (fun n => "- [" ++ n ++ "](/middleware/" ++ n ++ ")"))
        ++ "\n") := by
  rw [run_lookup_index, indexContent, scan_mwList_eq]

/-- C4: running the script a second time over the same listing performs
exactly the same writes and leaves every path with the same content. -/
theorem C4_idempotent (entries : List SubDir) (cfg : Option String)
    (fs0 : List (String × String)) :
    (runMigration entries cfg ((runMigration entries cfg fs0).fs)).writes =
      (runMigration entries cfg fs0).writes ∧
    ∀ p, fsLookup (runMigration entries cfg ((runMigration entries cfg fs0).fs)).fs p =
      fsLookup (runMigration entries cfg fs0).fs p := by
  constructor
  · rw [run_writes_eq, run_writes_eq]
  · intro p
    rw [run_fs_eq, run_fs_eq, fsLookup_applyWrites, fsLookup_applyWrites]
    cases lastWrite ((scanMiddlewares entries).writes ++
      [(pathJoin targetDir "index.md",
        indexContent (scanMiddlewares entries).middlewareList)]) p <;>
      simp [Option.or]

/-- C5, as stated, is false: at a concrete single-entry listing the
constructed sidebar block is not among the lines the script prints — the
script only prints the header line and the JSON name list. -/
theorem C5_counterexample :
    newSidebarSection
        ((scanMiddlewares [⟨"auth", true, some "# Auth"⟩]).middlewareList) ∉
      (runMigration [⟨"auth", true, some "# Auth"⟩] (some "export default") []).logs := by
  decide

/-- C5 (amended): the primary script constructs a sidebar text block (a
title entry plus one list item per collected name, each list item
capitalizing the first letter for display) but never prints it; its
standard output is the per-topic `Migrated` lines followed by a header line
and the JSON-encoded list of the collected names. -/
theorem C5_sidebar_constructed_not_printed (entries : List SubDir) (c : String)
    (fs0 : List (String × String)) :
    (runMigration entries (some c) fs0).logs =
      (scanMiddlewares entries).logs ++
        ["Middleware List for Sidebar:",
         jsonStringify (scanMiddlewares entries).middlewareList] ∧
    newSidebarSection ((scanMiddlewares entries).middlewareList) ∉
      (runMigration entries (some c) fs0).logs :=
  ⟨run_logs_some entries c fs0, sidebar_not_logged entries c fs0 _⟩

/-- C6: no write of the primary script targets `config.mts` — its content
after the run is whatever it was before — and the executed sidebar step
only logs the header line plus the JSON-encoded name list. -/
theorem C6_config_never_modified (entries : List SubDir) (cfg : Option String)
    (fs0 : List (String × String)) :
    configPath ∉ (runMigration entries cfg fs0).writes.map Prod.fst ∧
    fsLookup (runMigration entries cfg fs0).fs configPath = fsLookup fs0 configPath ∧
    (∀ c : String, (runMigration entries (some c) fs0).logs =
      (scanMiddlewares entries).logs ++
        ["Middleware List for Sidebar:",
         jsonStringify (scanMiddlewares entries).middlewareList]) := by
  refine ⟨fun hmem => ?_, ?_, fun c => run_logs_some entries c fs0⟩
  · rw [run_writes_eq, List.map_append] at hmem
    rcases List.mem_append.mp hmem with h1 | h2
    · rw [scan_writes_eq, List.map_map] at h1
      obtain ⟨e, _, heq⟩ := List.mem_map.mp h1
      exact pathJoin_targetDir_ne_configPath _ heq
    · simp only [List.map_cons, List.map_nil, List.mem_singleton] at h2
      exact pathJoin_targetDir_ne_configPath _ h2.symm
  · rw [run_fs_eq, fsLookup_applyWrites, lastWrite_append]
    have h1 : lastWrite
        [(pathJoin targetDir "index.md",
          indexContent (scanMiddlewares entries).middlewareList)] configPath = none := by
      simp only [lastWrite, Option.none_or]
      rw [if_neg (pathJoin_targetDir_ne_configPath _)]
    rw [h1, lastWrite_scan_config_none, Option.none_or, Option.none_or]

/-- C7: for each pair of the hard-coded mapping list, an existing source is
copied verbatim to its destination with a success line, and a missing
source yields exactly one warning line, no write to that destination, and
no exception (the run is a total function of its inputs). -/
theorem C7_copy_or_single_warning (f : String → Option String) (d0 : String → Bool)
    (m : Mapping) (hm : m ∈ mappings) :
    (∀ c, f (resolveP m.src) = some c →
      Ev.write (resolveP m.dest) c ∈ runRemaining f d0 mappings ∧
      Ev.log ("Migrated " ++ m.src ++ " -> " ++ m.dest) ∈ runRemaining f d0 mappings) ∧
    (f (resolveP m.src) = none →
      (runRemaining f d0 mappings).count
          (Ev.log ("WARNING: Source not found: " ++ m.src)) = 1 ∧
      ∀ c, Ev.write (resolveP m.dest) c ∉ runRemaining f d0 mappings) := by
  constructor
  · intro c hc
    exact ⟨mem_runRemaining f mappings m _ hm
        (fun b => (success_mem_pairEvents f b m c hc).1) d0,
      mem_runRemaining f mappings m _ hm
        (fun b => (success_mem_pairEvents f b m c hc).2) d0⟩
  · intro hno
    exact ⟨count_warn_one f mappings m (by decide) hm hno d0,
      fun c => write_not_mem_run f mappings m (by decide) hm hno c d0⟩

/-- Witness for C7: with one existing source (`tutorial.md`) and the rest
missing, the client pair gets exactly one warning and the tutorial pair is
copied. -/
theorem C7_witness :
    (⟨"documentation/client/README.md", "docs/core/client.md"⟩ : Mapping) ∈ mappings ∧
    (runRemaining
        (fun p => if p = resolveP "documentation/tutorial.md" then some "# T" else none)
        (fun _ => false) mappings).count
      (Ev.log ("WARNING: Source not found: " ++ "documentation/client/README.md")) = 1 ∧
    Ev.write (resolveP "docs/guide/tutorial.md") "# T" ∈
      runRemaining
        (fun p => if p = resolveP "documentation/tutorial.md" then some "# T" else none)
        (fun _ => false) mappings := by
  refine ⟨by decide, ?_, ?_⟩
  · exact ((C7_copy_or_single_warning
      (fun p => if p = resolveP "documentation/tutorial.md" then some "# T" else none)
      (fun _ => false)
      ⟨"documentation/client/README.md", "docs/core/client.md"⟩ (by decide)).2
        (by decide)).1
  · exact ((C7_copy_or_single_warning
      (fun p => if p = resolveP "documentation/tutorial.md" then some "# T" else none)
      (fun _ => false)
      ⟨"documentation/tutorial.md", "docs/guide/tutorial.md"⟩ (by decide)).1 "# T"
        (by decide)).1

/-- C8: in the fallible model of the primary script, an unreadable source
directory aborts the run with nothing written; any failed run's writes and
logs are a prefix of the no-failure run's (no retry, no recovery, no
rollback of files already written); a run with no failing primitive throws
nothing (a missing `README.md` is a skip, not an error); and an error-free
loop did exactly the no-failure loop's work. -/
theorem C8_other_failures_abort (o : Oracle) (entries : List SubDir) :
    (o.readdirFail = true → runExc o entries = ⟨[], [], [], some FsErr.readdirE⟩) ∧
    (runExc o entries).writes <+: (runExc noFail entries).writes ∧
    (runExc o entries).logs <+: (runExc noFail entries).logs ∧
    (runExc noFail entries).err = none ∧
    ((scanExc o entries).err = none → scanExc o entries = scanExc noFail entries) := by
  have hnf : runExc noFail entries =
      ⟨(scanMiddlewares entries).writes ++
         [(pathJoin targetDir "index.md",
           indexContent (scanMiddlewares entries).middlewareList)],
       (scanMiddlewares entries).logs ++
         ["Middleware List for Sidebar:",
          jsonStringify (scanMiddlewares entries).middlewareList],
       (scanMiddlewares entries).middlewareList, none⟩ := by
    simp [runExc, scanExc_noFail, noFail_writeFail,
      show noFail.readdirFail = false from rfl, show noFail.configFail = false from rfl]
  have hpre : (runExc o entries).writes <+: (runExc noFail entries).writes ∧
      (runExc o entries).logs <+: (runExc noFail entries).logs := by
    by_cases hrd : o.readdirFail = true
    · rw [show runExc o entries = ⟨[], [], [], some FsErr.readdirE⟩ from by
        simp [runExc, hrd]]
      exact ⟨List.nil_prefix, List.nil_prefix⟩
    · cases herr : (scanExc o entries).err with
      | some er =>
        have hro : runExc o entries =
            ⟨(scanExc o entries).writes, (scanExc o entries).logs,
             (scanExc o entries).middlewareList, some er⟩ := by
          simp [runExc, hrd, herr]
        rw [hro, hnf]
        have hp := scanExc_prefix o entries
        rw [scanExc_noFail] at hp
        exact ⟨hp.1.trans (List.prefix_append _ _), hp.2.trans (List.prefix_append _ _)⟩
      | none =>
        have heq := scanExc_err_none o entries herr
        rw [scanExc_noFail] at heq
        by_cases hwf : o.writeFail (pathJoin targetDir "index.md") = true
        · have hro : runExc o entries =
              ⟨(scanExc o entries).writes, (scanExc o entries).logs,
               (scanExc o entries).middlewareList,
               some (FsErr.writeE (pathJoin targetDir "index.md"))⟩ := by
            simp [runExc, hrd, herr, hwf]
          rw [hro, heq, hnf]
          exact ⟨List.prefix_append _ _, List.prefix_append _ _⟩
        · by_cases hcf : o.configFail = true
          · have hro : runExc o entries =
                ⟨(scanExc o entries).writes ++
                   [(pathJoin targetDir "index.md",
                     indexContent (scanExc o entries).middlewareList)],
                 (scanExc o entries).logs, (scanExc o entries).middlewareList,
                 some FsErr.configE⟩ := by
              simp [runExc, hrd, herr, hwf, hcf]
            rw [hro, heq, hnf]
            exact ⟨List.prefix_rfl, List.prefix_append _ _⟩
          · have hro : runExc o entries =
                ⟨(scanExc o entries).writes ++
                   [(pathJoin targetDir "index.md",
                     indexContent (scanExc o entries).middlewareList)],
                 (scanExc o entries).logs ++
                   ["Middleware List for Sidebar:",
                    jsonStringify (scanExc o entries).middlewareList],
                 (scanExc o entries).middlewareList, none⟩ := by
              simp [runExc, hrd, herr, hwf, hcf]
            rw [hro, heq, hnf]
            exact ⟨List.prefix_rfl, List.prefix_rfl⟩
  refine ⟨fun h => by simp [runExc, h], hpre.1, hpre.2, ?_, scanExc_err_none o entries⟩
  rw [hnf]

/-- Witness for C8: a failing `readdirSync` aborts a concrete run before
anything is written. -/
theorem C8_witness :
    (⟨true, fun _ => false, fun _ => false, fun _ => false, false⟩ : Oracle).readdirFail
        = true ∧
      runExc ⟨true, fun _ => false, fun _ => false, fun _ => false, false⟩
        [⟨"auth", true, some "# Auth"⟩] = ⟨[], [], [], some FsErr.readdirE⟩ :=
  ⟨rfl, (C8_other_failures_abort
      ⟨true, fun _ => false, fun _ => false, fun _ => false, false⟩
      [⟨"auth", true, some "# Auth"⟩]).1 rfl⟩

/-- C9: each pair's destination directory, when absent at the start of the
run, is created by the run — the source file's existence (left arbitrary
here) plays no part, because `mkdirSync` precedes the `existsSync` check
on the source. -/
theorem C9_mkdir_even_when_skipped (f : String → Option String) (d0 : String → Bool)
    (m : Mapping) (hm : m ∈ mappings)
    (hd : d0 (dirname (resolveP m.dest)) = false) :
    Ev.mkdir (dirname (resolveP m.dest)) ∈ runRemaining f d0 mappings :=
  mkdir_ensured f mappings m hm d0 hd

/-- Witness for C9: with every source missing, the client pair's
destination directory is still created. -/
theorem C9_witness :
    ((⟨"documentation/client/README.md", "docs/core/client.md"⟩ : Mapping) ∈ mappings ∧
      (fun _ : String => false) (dirname (resolveP "docs/core/client.md")) = false) ∧
    Ev.mkdir (dirname (resolveP "docs/core/client.md")) ∈
      runRemaining (fun _ => none) (fun _ => false) mappings :=
  ⟨⟨by decide, rfl⟩,
    C9_mkdir_even_when_skipped (fun _ => none) (fun _ => false)
      ⟨"documentation/client/README.md", "docs/core/client.md"⟩ (by decide) rfl⟩

/-- C10: with the config file absent, the run crashes at the config read,
after the topic files and the generated `index.md` are already on disk and
before the final console lines are printed. -/
theorem C10_crash_after_outputs (entries : List SubDir) (fs0 : List (String × String)) :
    (runMigration entries none fs0).crashed = true ∧
    (runMigration entries none fs0).logs = (scanMiddlewares entries).logs ∧
    fsLookup (runMigration entries none fs0).fs (pathJoin targetDir "index.md") =
      some (indexContent (scanMiddlewares entries).middlewareList) ∧
    (∀ e content, (entries.map SubDir.name).Nodup → e ∈ entries → e.isDir = true →
      e.readme = some content → e.name ≠ "index" →
      fsLookup (runMigration entries none fs0).fs
        (pathJoin targetDir (e.name ++ ".md")) = some content) :=
  ⟨rfl, rfl, run_lookup_index entries none fs0,
   fun e content hnd he hd hr hn => run_lookup_topic entries none fs0 e content hnd he hd hr hn⟩

/-- Witness for C10: a concrete run with the config missing crashes but
leaves `auth.md` written. -/
theorem C10_witness :
    (runMigration [⟨"auth", true, some "# Auth"⟩] none []).crashed = true ∧
    fsLookup (runMigration [⟨"auth", true, some "# Auth"⟩] none []).fs
      (pathJoin targetDir ("auth" ++ ".md")) = some "# Auth" :=
  ⟨(C10_crash_after_outputs [⟨"auth", true, some "# Auth"⟩] []).1,
    (C10_crash_after_outputs [⟨"auth", true, some "# Auth"⟩] []).2.2.2
      ⟨"auth", true, some "# Auth"⟩ "# Auth" (by decide) (by decide) rfl rfl (by decide)⟩

end GoryuDoc
